import Mathlib

/-!
Shallow embedding of the extraction–normalization–filtering–encoding pipeline
of the zivy-obraz Bakaláři sync scripts (src/utils/bakalari.mjs,
src/marks-sync.mjs, src/homeworks-sync.mjs).

JavaScript values occurring in the JSON payloads are modelled by `JsVal`;
instants are modelled as integer milliseconds since the Unix epoch (the value
of `Date.prototype.getTime`), an invalid date (`NaN` time value) as `none` of
`Option Int`.  The process environment is modelled as running with a UTC
local timezone, which is also what the spec's day-boundary semantics assume.
-/

namespace Bakalari

/-- A JavaScript value as it can occur in the upstream JSON payloads:
`undefined`, `null`, strings, (integer) numbers, arrays and plain objects.
Objects are association lists from field names to values. -/
inductive JsVal where
  | undefined
  | null
  | str (s : String)
  | num (n : Int)
  | arr (elems : List JsVal)
  | obj (fields : List (String × JsVal))

/-- Optional-chained property access `v?.k`: field lookup on objects,
`undefined` on everything else (including `undefined`/`null` receivers,
which is what the `?.` operator yields). -/
def JsVal.get (v : JsVal) (k : String) : JsVal :=
  match v with
  | .obj fields => (fields.lookup k).getD .undefined
  | _ => .undefined

/-- Test: `v` is nullish (`undefined` or `null`), the values skipped by `??`. -/
def JsVal.isNullish : JsVal → Bool
  | .undefined => true
  | .null => true
  | _ => false

/-- Test: `v` is exactly `undefined` (the `typeof v !== 'undefined'` test). -/
def JsVal.isUndefined : JsVal → Bool
  | .undefined => true
  | _ => false

/-- Test: `v` is a string. -/
def JsVal.isStr : JsVal → Bool
  | .str _ => true
  | _ => false

/-- JavaScript truthiness: `undefined`, `null`, `''` and `0` are falsy;
all other modelled values (non-empty strings, non-zero numbers, arrays,
objects) are truthy. -/
def JsVal.truthy : JsVal → Bool
  | .undefined => false
  | .null => false
  | .str s => !s.isEmpty
  | .num n => decide (n ≠ 0)
  | .arr _ => true
  | .obj _ => true

/-- The nullish-coalescing operator `v ?? d`. -/
def jsOr (v d : JsVal) : JsVal :=
  if v.isNullish then d else v

/-- A chain `v₁ ?? v₂ ?? ... ?? vₙ`, yielding `undefined` when every link is
nullish. -/
def firstNonNullish : List JsVal → JsVal
  | [] => .undefined
  | v :: vs => if v.isNullish then firstNonNullish vs else v

/-- Models `String.prototype.trim`: strip leading and trailing whitespace (the JS
whitespace class is modelled by `Char.isWhitespace`). -/
def jsTrim (s : String) : String :=
  String.mk (((s.toList.dropWhile Char.isWhitespace).reverse.dropWhile
    Char.isWhitespace).reverse)

/-- Models `String.prototype.split` for a one-character separator, on character
lists. -/
def splitChar (sep : Char) : List Char → List (List Char)
  | [] => [[]]
  | c :: rest =>
      match splitChar sep rest with
      | [] => if c = sep then [[], []] else [[c]]
      | p :: ps => if c = sep then [] :: p :: ps else (c :: p) :: ps

/-- Models `String.prototype.split` for a one-character separator. -/
def splitOnChar (sep : Char) (s : String) : List String :=
  (splitChar sep s.toList).map String.mk

/-- Parse a run of ASCII digits as a natural number, `none` when the string
is empty or holds any non-digit. -/
def parseNatField (s : String) : Option Nat :=
  let cs := s.toList
  if cs ≠ [] ∧ cs.all Char.isDigit then
    some (cs.foldl (fun n c => n * 10 + (c.toNat - 48)) 0)
  else
    none

/-- String coercion `String(v)` / template-literal interpolation, for the
value shapes the payloads contain.  Arrays stringify by comma-joining their
elements; that case is modelled as the join of one level only (no payload in
scope nests arrays inside arrays). -/
def jsString : JsVal → String
  | .undefined => "undefined"
  | .null => "null"
  | .str s => s
  | .num n => toString n
  | .arr elems =>
      String.intercalate ","
        (elems.map fun e =>
          match e with
          | .str s => s
          | .num n => toString n
          | .null => ""
          | .undefined => ""
          | _ => "")
  | .obj _ => "[object Object]"

/-! ### Instants and `new Date` parsing

`new Date(string)` is modelled for the ISO profiles the Bakaláři API emits:
a plain calendar date `YYYY-MM-DD`, and a date-time
`YYYY-MM-DDTHH:MM[:SS]` with an optional trailing `Z`; both are taken as
UTC (the environment is modelled as running in the UTC timezone).  Any
other string is an invalid date (`none`). -/

/-- Milliseconds per UTC day. -/
def msPerDay : Int := 86400000

/-- Days from the civil date `y-m-d` to 1970-01-01 (proleptic Gregorian);
the standard `days_from_civil` algorithm. -/
def daysFromCivil (y m d : Int) : Int :=
  let y := if m ≤ 2 then y - 1 else y
  let era := Int.fdiv y 400
  let yoe := y - era * 400
  let mp := Int.emod (m + 9) 12
  let doy := Int.fdiv (153 * mp + 2) 5 + d - 1
  let doe := yoe * 365 + Int.fdiv yoe 4 - Int.fdiv yoe 100 + doy
  era * 146097 + doe - 719468

/-- Parse a `YYYY-MM-DD` calendar date into days since the epoch. -/
def parseYMD (s : String) : Option Int := do
  match splitOnChar '-' s with
  | [y, m, d] =>
      let yn ← parseNatField y
      let mn ← parseNatField m
      let dn ← parseNatField d
      if y.length = 4 ∧ m.length = 2 ∧ d.length = 2 ∧
          1 ≤ mn ∧ mn ≤ 12 ∧ 1 ≤ dn ∧ dn ≤ 31 then
        some (daysFromCivil (Int.ofNat yn) (Int.ofNat mn) (Int.ofNat dn))
      else
        none
  | _ => none

/-- Parse a `HH:MM[:SS]` time (optionally suffixed `Z`) into milliseconds
past midnight. -/
def parseTimeMs (s : String) : Option Int := do
  let cs := s.toList
  let core := if cs.getLast? = some 'Z' then cs.dropLast else cs
  match (splitChar ':' core).map String.mk with
  | [h, mi] =>
      let hn ← parseNatField h
      let mn ← parseNatField mi
      if h.length = 2 ∧ mi.length = 2 ∧ hn ≤ 23 ∧ mn ≤ 59 then
        some ((Int.ofNat hn * 3600 + Int.ofNat mn * 60) * 1000)
      else
        none
  | [h, mi, se] =>
      let hn ← parseNatField h
      let mn ← parseNatField mi
      let sn ← parseNatField se
      if h.length = 2 ∧ mi.length = 2 ∧ se.length = 2 ∧
          hn ≤ 23 ∧ mn ≤ 59 ∧ sn ≤ 59 then
        some ((Int.ofNat hn * 3600 + Int.ofNat mn * 60 + Int.ofNat sn) * 1000)
      else
        none
  | _ => none

/-- Models `new Date(s).getTime()` for a string argument, `none` when the result is
an invalid date. -/
def jsParseDateString (s : String) : Option Int :=
  match splitOnChar 'T' s with
  | [d] => (parseYMD d).map (· * msPerDay)
  | [d, t] => do
      let days ← parseYMD d
      let ms ← parseTimeMs t
      some (days * msPerDay + ms)
  | _ => none

/-- Models `new Date(v).getTime()` for the payload value shapes: strings are parsed,
numbers are millisecond timestamps, `null` coerces to the epoch, and
`undefined`, arrays and plain objects give an invalid date. -/
def newDate (v : JsVal) : Option Int :=
  match v with
  | .str s => jsParseDateString s
  | .num n => some n
  | .null => some 0
  | _ => none

/-- Modelled from the spec: `startOfUtcDay` lives in `src/utils/util.mjs`,
which is not part of the sources at hand.  The spec's DayBoundary contract
says it "truncates to UTC midnight of that calendar day", i.e. the floor of
the instant to a multiple of a day's milliseconds. -/
def startOfUtcDay (t : Int) : Int :=
  Int.fdiv t msPerDay * msPerDay

/-- Modelled from the spec: `formatDate` lives in `src/utils/util.mjs`,
which is not part of the sources at hand.  The spec only says the metadata
line carries "a formatted date" and fixes no format, so the model renders the
instant's timestamp; only *which* instant is formatted matters to the
properties proved below. -/
def formatDate (t : Int) : String :=
  toString t

/-- Modelled from the spec: `describeRelativeDay` lives in
`src/utils/util.mjs`, which is not part of the sources at hand.  The spec
describes it as a pure function of `(generatedAt, dueDate)` returning a
closed enumeration of relative-day indicator strings such as
"today"/"tomorrow"/"in N days", computed from the day difference against the
generation date. -/
def describeRelativeDay (generatedAt dueDate : Int) : String :=
  let diff := Int.fdiv (startOfUtcDay dueDate - startOfUtcDay generatedAt) msPerDay
  if diff = 0 then "today"
  else if diff = 1 then "tomorrow"
  else "in " ++ toString diff ++ " days"

/-! ### Field and date resolution (src/utils/bakalari.mjs) -/

/-- Embeds `extractSubjectName`:
`subject?.Subject?.Abbrev ?? subject?.Subject?.Name ?? subject?.Name ??
subject?.Abbrev ?? 'Neznámý předmět'`.  Note the chain takes the first
non-nullish value whatever it is; it does not trim nor require a string. -/
def extractSubjectName (subject : JsVal) : JsVal :=
  jsOr (firstNonNullish
    [(subject.get "Subject").get "Abbrev",
     (subject.get "Subject").get "Name",
     subject.get "Name",
     subject.get "Abbrev"])
    (.str "Neznámý předmět")

/-- The conditional `typeof v !== 'undefined' ? String(v) : undefined`
appearing in `extractMarkValue` for the `Value` and `Mark` fields. -/
def stringUnlessUndef (v : JsVal) : JsVal :=
  if v.isUndefined then .undefined else .str (jsString v)

/-- Embeds `extractMarkValue`: a `??` chain over `MarkText`, `Text`, `Caption`,
`ValueText`, then `String(Value)` / `String(Mark)` when those fields are not
`undefined`, with final fallback `''`.  The first four candidates are passed
through raw (untrimmed, possibly non-string). -/
def extractMarkValue (mark : JsVal) : JsVal :=
  jsOr (firstNonNullish
    [mark.get "MarkText",
     mark.get "Text",
     mark.get "Caption",
     mark.get "ValueText",
     stringUnlessUndef (mark.get "Value"),
     stringUnlessUndef (mark.get "Mark")])
    (.str "")

/-- The edit-date string selection in `fetchSubjectMarks`:
`mark?.EditDate ?? mark?.MarkDate ?? mark?.Date ?? mark?.Created ??
mark?.CreatedDate`, then `editDateString ? new Date(editDateString) : null`
with the `Number.isNaN` validity check folded into the `Option`. -/
def resolveMarkEditDate (mark : JsVal) : Option Int :=
  let editDateString := firstNonNullish
    [mark.get "EditDate",
     mark.get "MarkDate",
     mark.get "Date",
     mark.get "Created",
     mark.get "CreatedDate"]
  if editDateString.truthy then newDate editDateString else none

/-- Embeds `extractHomeworkDueDate`: picks the first non-nullish of the candidate
fields with `??`, returns `null` if that value is falsy, otherwise parses it
with `new Date` and returns `null` on an invalid date.  (The `console.info`
call on the falsy branch is a side effect outside the model.) -/
def extractHomeworkDueDate (homework : JsVal) : Option Int :=
  let dateString := firstNonNullish
    [homework.get "DueDate",
     homework.get "Deadline",
     homework.get "Due",
     homework.get "DateEnd",
     homework.get "Date",
     homework.get "Created",
     homework.get "CreatedDate",
     homework.get "DateStart"]
  if dateString.truthy then newDate dateString else none

/-- The shared shape of `extractHomeworkContent` / `extractEventTitle` /
`extractEventDescription`:
`candidates.find(value => typeof value === 'string' && value.trim())?.trim()`.
Returns the trimmed first candidate that is a string with non-whitespace
content, `none` when there is none. -/
def findStringContent : List JsVal → Option String
  | [] => none
  | v :: vs =>
      match v with
      | .str s => if jsTrim s ≠ "" then some (jsTrim s) else findStringContent vs
      | _ => findStringContent vs

/-- Embeds `extractHomeworkContent`: first trimmed non-whitespace string among
`HomeworkText`, `Text`, `Description`, `Title`, `Content`, `Note`, `Name`,
with fallback `''`. -/
def extractHomeworkContent (homework : JsVal) : String :=
  (findStringContent
    [homework.get "HomeworkText",
     homework.get "Text",
     homework.get "Description",
     homework.get "Title",
     homework.get "Content",
     homework.get "Note",
     homework.get "Name"]).getD ""

/-- Embeds `extractEventTitle`: first trimmed non-whitespace string among `Title`,
`Name`, `Caption`, `Description`, with fallback `'Neznámá událost'`. -/
def extractEventTitle (event : JsVal) : String :=
  (findStringContent
    [event.get "Title",
     event.get "Name",
     event.get "Caption",
     event.get "Description"]).getD "Neznámá událost"

/-- Embeds `extractEventDescription`: first trimmed non-whitespace string among
`Description`, `Note`, `Content`, `Text`, `HomeworkText`, fallback `''`. -/
def extractEventDescription (event : JsVal) : String :=
  (findStringContent
    [event.get "Description",
     event.get "Note",
     event.get "Content",
     event.get "Text",
     event.get "HomeworkText"]).getD ""

/-- The repo's `parseDate`: `null` for falsy arguments, otherwise `new Date`
with the `Number.isNaN` validity check.  (The `instanceof Date` branch is
unreachable over JSON payload values and is not modelled.) -/
def parseDate (v : JsVal) : Option Int :=
  if v.truthy then newDate v else none

/-- The loop of `extractEventStartDate` / `extractEventEndDate`: try each
candidate with `parseDate` and return the first valid instant, skipping
candidates that fail to parse. -/
def firstParsedDate : List JsVal → Option Int
  | [] => none
  | v :: vs =>
      match parseDate v with
      | some t => some t
      | none => firstParsedDate vs

/-- Embeds `extractEventStartDate`: first parseable of `DateFrom`, `Start`, `Date`,
`From`, `Begin`, `Since`. -/
def extractEventStartDate (event : JsVal) : Option Int :=
  firstParsedDate
    [event.get "DateFrom",
     event.get "Start",
     event.get "Date",
     event.get "From",
     event.get "Begin",
     event.get "Since"]

/-- Embeds `extractEventEndDate`: first parseable of `DateTo`, `End`, `To`,
`Finish`, `Until`, falling back to `extractEventStartDate`. -/
def extractEventEndDate (event : JsVal) : Option Int :=
  match firstParsedDate
    [event.get "DateTo",
     event.get "End",
     event.get "To",
     event.get "Finish",
     event.get "Until"] with
  | some t => some t
  | none => extractEventStartDate event

/-- Embeds `extractEventType`: `Type ?? EventType ?? EventKind`; a trimmed
non-whitespace string is returned directly, otherwise the value's `Name`
then `Abbrev` sub-fields are tried the same way, fallback `''`. -/
def extractEventType (event : JsVal) : String :=
  let t := firstNonNullish
    [event.get "Type", event.get "EventType", event.get "EventKind"]
  match t with
  | .str s => if jsTrim s ≠ "" then jsTrim s else extractEventTypeNested t
  | _ => extractEventTypeNested t
where
  /-- The `type?.Name` / `type?.Abbrev` fallbacks of `extractEventType`. -/
  extractEventTypeNested (t : JsVal) : String :=
    match t.get "Name" with
    | .str s => if jsTrim s ≠ "" then jsTrim s else extractEventTypeAbbrev t
    | _ => extractEventTypeAbbrev t
  /-- The final `type?.Abbrev` fallback of `extractEventType`. -/
  extractEventTypeAbbrev (t : JsVal) : String :=
    match t.get "Abbrev" with
    | .str s => if jsTrim s ≠ "" then jsTrim s else ""
    | _ => ""

/-! ### Canonical records and the three pipelines' pure transforms

JavaScript's `Array.prototype.sort` with a numeric comparator is a stable
sort; with the non-strict total relations used below, `List.insertionSort`
computes exactly that stable sort. -/

/-- A normalized mark record as pushed by `fetchSubjectMarks`.  `editDate`
is a valid instant by construction (the push is guarded); `subjectName` and
`markValue` are whatever values the `??` chains produced. -/
structure CanonicalMark where
  subjectName : JsVal
  markValue : JsVal
  editDate : Int
  caption : JsVal
  theme : JsVal

/-- A normalized homework record as mapped by `fetchHomeworks`. -/
structure CanonicalHomework where
  subjectName : JsVal
  dueDate : Option Int
  content : String

/-- A normalized event record as mapped by `fetchEvents`. -/
structure CanonicalEvent where
  startDate : Option Int
  endDate : Option Int
  subjectName : JsVal
  title : String
  description : String
  type : String

/-- Read a value as an array's element list; container values that are
neither arrays nor absent would make the subsequent `forEach`/`filter`
throw in JS and are outside the modelled payload shapes. -/
def JsVal.asArrayD : JsVal → List JsVal
  | .arr elems => elems
  | _ => []

/-- The body of the `marks.forEach` in `fetchSubjectMarks`: build one
canonical mark from a raw nested mark, or drop it when the guard
`markValue && editDate && !Number.isNaN(editDate.getTime())` fails. -/
def normalizeRawMark (subjectName : JsVal) (mark : JsVal) : Option CanonicalMark :=
  let markValue := extractMarkValue mark
  match resolveMarkEditDate mark with
  | none => none
  | some t =>
      if markValue.truthy then
        some
          { subjectName := subjectName
            markValue := markValue
            editDate := t
            caption := jsOr (mark.get "Caption") (jsOr (mark.get "Theme") (.str ""))
            theme := jsOr (mark.get "Theme") (.str "") }
      else
        none

/-- The flattening loop of `fetchSubjectMarks`: for every subject group,
resolve the subject name once and normalize each mark of
`subject?.Marks ?? subject?.marks ?? []`, dropping the failures. -/
def validMarks (subjects : List JsVal) : List CanonicalMark :=
  subjects.flatMap fun subject =>
    ((jsOr (subject.get "Marks") (jsOr (subject.get "marks") (.arr []))).asArrayD).filterMap
      (normalizeRawMark (extractSubjectName subject))

/-- The final `map` step of `fetchSubjectMarks`: flatten and normalize, sort
by edit date descending (comparator `b.editDate - a.editDate`), keep the
first 10 (`slice(0, 10)`). -/
def processMarks (subjects : List JsVal) : List CanonicalMark :=
  (List.insertionSort (fun a b => b.editDate ≤ a.editDate) (validMarks subjects)).take 10

/-- Embeds `isHomeworkWithinRange`: resolve the due date, reject on failure, and
compare UTC day floors inclusively on both ends. -/
def isHomeworkWithinRange (homework : JsVal) (fromDate toDate : Int) : Bool :=
  match extractHomeworkDueDate homework with
  | none => false
  | some due =>
      decide (startOfUtcDay fromDate ≤ startOfUtcDay due) &&
      decide (startOfUtcDay due ≤ startOfUtcDay toDate)

/-- The pure transform of `fetchHomeworks` after the fetch: filter raw
records by range, map to canonical shape, drop records whose due date failed
to resolve, sort ascending by due date (comparator `a.dueDate - b.dueDate`;
`getD 0` mirrors number coercion, unreachable after the `dueDate` filter). -/
def processHomeworks (homeworks : List JsVal) (fromDate toDate : Int) :
    List CanonicalHomework :=
  List.insertionSort (fun a b => a.dueDate.getD 0 ≤ b.dueDate.getD 0)
    (((homeworks.filter fun h => isHomeworkWithinRange h fromDate toDate).map
        fun h =>
          { subjectName := extractSubjectName h
            dueDate := extractHomeworkDueDate h
            content := extractHomeworkContent h }).filter
      fun h => h.dueDate.isSome)

/-- The body of `fetchEvents`' `map`: one canonical event per raw event. -/
def normalizeEvent (event : JsVal) : CanonicalEvent :=
  { startDate := extractEventStartDate event
    endDate := extractEventEndDate event
    subjectName := extractSubjectName event
    title := extractEventTitle event
    description := extractEventDescription event
    type := extractEventType event }

/-- Embeds `isEventWithinRange`: a missing start date rejects the event outright,
otherwise UTC day floors are compared inclusively on both ends. -/
def isEventWithinRange (event : CanonicalEvent) (fromDate toDate : Int) : Bool :=
  match event.startDate with
  | none => false
  | some s =>
      decide (startOfUtcDay fromDate ≤ startOfUtcDay s) &&
      decide (startOfUtcDay s ≤ startOfUtcDay toDate)

/-- The pure transform of `fetchEvents` after the fetch: map to canonical
shape, filter by range on the start date, sort ascending by
`(a.startDate ?? 0) - (b.startDate ?? 0)`. -/
def processEvents (events : List JsVal) (fromDate toDate : Int) :
    List CanonicalEvent :=
  List.insertionSort (fun a b => a.startDate.getD 0 ≤ b.startDate.getD 0)
    ((events.map normalizeEvent).filter fun ev => isEventWithinRange ev fromDate toDate)

/-- Embeds `response.data?.Subjects ?? response.data?.subjects ?? []` of
`fetchSubjectMarks`. -/
def subjectsContainer (data : JsVal) : List JsVal :=
  (jsOr (data.get "Subjects") (jsOr (data.get "subjects") (.arr []))).asArrayD

/-- Embeds `response.data?.Homeworks ?? response.data?.homeworks ?? []` of
`fetchHomeworks`. -/
def homeworksContainer (data : JsVal) : List JsVal :=
  (jsOr (data.get "Homeworks") (jsOr (data.get "homeworks") (.arr []))).asArrayD

/-- Embeds `response.data?.Events ?? response.data?.events ?? []` of
`fetchEvents`. -/
def eventsContainer (data : JsVal) : List JsVal :=
  (jsOr (data.get "Events") (jsOr (data.get "events") (.arr []))).asArrayD

/-! ### Line encoding (src/marks-sync.mjs `buildMarksQueryString`,
src/homeworks-sync.mjs `buildHomeworksQueryString`)

The ambient `new Date()` read by `buildMarksQueryString` is passed in
explicitly as `now`.  JS string `.length`/`substring` count UTF-16 code
units; every character the renderers emit lies in the Basic Multilingual
Plane, where those coincide with the code points counted by
`String.length`/`String.take`. -/

/-- UTF-8 bytes of one character. -/
def utf8Bytes (c : Char) : List Nat :=
  let n := c.toNat
  if n < 0x80 then [n]
  else if n < 0x800 then [0xC0 + n / 0x40, 0x80 + n % 0x40]
  else if n < 0x10000 then
    [0xE0 + n / 0x1000, 0x80 + n / 0x40 % 0x40, 0x80 + n % 0x40]
  else
    [0xF0 + n / 0x40000, 0x80 + n / 0x1000 % 0x40, 0x80 + n / 0x40 % 0x40,
     0x80 + n % 0x40]

/-- Upper-case hexadecimal digit for `n < 16`. -/
def hexDigit (n : Nat) : Char :=
  if n < 10 then Char.ofNat (48 + n) else Char.ofNat (55 + n)

/-- The `%XY` percent escape of one byte. -/
def percentByte (b : Nat) : String :=
  String.mk ['%', hexDigit (b / 16), hexDigit (b % 16)]

/-- The characters `encodeURIComponent` leaves unescaped:
`A–Z a–z 0–9 - _ . ! ~ * ' ( )`. -/
def isUnescapedChar (c : Char) : Bool :=
  c.isAlpha || c.isDigit || c = '-' || c = '_' || c = '.' || c = '!' ||
  c = '~' || c = '*' || c = Char.ofNat 39 || c = '(' || c = ')'

/-- The `encodeURIComponent` builtin: percent-encode the UTF-8 bytes of
every character outside the unescaped set. -/
def encodeURIComponent (s : String) : String :=
  s.toList.foldl
    (fun acc c =>
      if isUnescapedChar c then acc.push c
      else acc ++ String.join ((utf8Bytes c).map percentByte))
    ""

/-- Models `Array.prototype.join(sep)`. -/
def joinSep (sep : String) : List String → String
  | [] => ""
  | [a] => a
  | a :: b :: rest => a ++ sep ++ joinSep sep (b :: rest)

/-- Civil date `(y, m, d)` of a days-since-epoch count; the standard
`civil_from_days` algorithm (inverse of `daysFromCivil`). -/
def civilFromDays (z : Int) : Int × Int × Int :=
  let z := z + 719468
  let era := Int.fdiv z 146097
  let doe := z - era * 146097
  let yoe :=
    Int.fdiv (doe - Int.fdiv doe 1460 + Int.fdiv doe 36524 - Int.fdiv doe 146096) 365
  let y := yoe + era * 400
  let doy := doe - (365 * yoe + Int.fdiv yoe 4 - Int.fdiv yoe 100)
  let mp := Int.fdiv (5 * doy + 2) 153
  let d := doy - Int.fdiv (153 * mp + 2) 5 + 1
  let m := mp + (if mp < 10 then 3 else -9)
  (if m ≤ 2 then y + 1 else y, m, d)

/-- The `formatShortDate` closure of `buildMarksQueryString`:
`Intl.DateTimeFormat('cs-CZ', { day: 'numeric', month: 'numeric' })`, which
renders a UTC instant as `D. M.`. -/
def formatShortDate (t : Int) : String :=
  let c := civilFromDays (Int.fdiv t msPerDay)
  toString c.2.2 ++ ". " ++ toString c.2.1 ++ "."

/-- The argument of an encoder as handed over a JS call boundary: either an
actual array of canonical records, or any non-array value (`undefined`, an
object, ...), which `Array.isArray` rejects. -/
inductive EncoderArg (α : Type) where
  | array (xs : List α)
  | nonArray (v : JsVal)

/-- The "no new marks" message of `buildMarksQueryString`. -/
def noMarksMessage : String := "Žádné nové známky za vybrané období."

/-- The "no upcoming homeworks" message of `buildHomeworksQueryString`. -/
def noHomeworksMessage : String := "Žádné nadcházející domácí úkoly."

/-- The empty-input branch of `buildMarksQueryString`: one message line and
one metadata line stamped with the ambient `new Date()`. -/
def marksEmptyOutput (now : Int) (lineParam updatedParam : String) : String :=
  joinSep "&"
    [lineParam ++ "_1=" ++ encodeURIComponent noMarksMessage,
     updatedParam ++ "=" ++ encodeURIComponent (formatDate now)]

/-- The empty-input branch of `buildHomeworksQueryString`: one message line
and one metadata line stamped with `generatedAt`. -/
def homeworksEmptyOutput (generatedAt : Int) (lineParam updatedParam : String) :
    String :=
  joinSep "&"
    [lineParam ++ "_1=" ++ encodeURIComponent noHomeworksMessage,
     updatedParam ++ "=" ++ encodeURIComponent (formatDate generatedAt)]

/-- Embeds `marks[0]?.editDate ?? new Date()`: the instant stamped on the metadata
line of a non-empty marks encoding. -/
def marksUpdatedInstant (marks : List CanonicalMark) (now : Int) : Int :=
  ((marks.head?).map (·.editDate)).getD now

/-- One rendered marks line:
`` `${mark.subjectName.trim()}: ${mark.markValue} (${formatShortDate(mark.editDate)})` ``
(template-literal interpolation coerces the values to strings). -/
def renderMarkLine (mark : CanonicalMark) : String :=
  jsTrim (jsString mark.subjectName) ++ ": " ++ jsString mark.markValue ++ " (" ++
    formatShortDate mark.editDate ++ ")"

/-- Embeds `buildMarksQueryString(marks, linePrefix, updatedParam)` with the
ambient `new Date()` passed as `now`.  Non-arrays and empty arrays take the
empty branch; otherwise every mark is rendered and indexed 1-based, and the
metadata line is stamped with `marks[0]?.editDate ?? new Date()`. -/
def buildMarksQueryString (marks : EncoderArg CanonicalMark) (now : Int)
    (lineParam updatedParam : String) : String :=
  match marks with
  | .nonArray _ => marksEmptyOutput now lineParam updatedParam
  | .array xs =>
      if xs.isEmpty then marksEmptyOutput now lineParam updatedParam
      else
        joinSep "&"
          ((xs.enum.map fun p =>
              lineParam ++ "_" ++ toString (p.1 + 1) ++ "=" ++
                encodeURIComponent (renderMarkLine p.2)) ++
            [updatedParam ++ "=" ++
              encodeURIComponent (formatDate (marksUpdatedInstant xs now))])

/-- The `.replace(/\s+/g, ' ')` of the homework content: collapse every
maximal whitespace run into a single space. -/
def collapseWhitespace (s : String) : String :=
  (s.toList.foldl
    (fun (acc : String × Bool) c =>
      if c.isWhitespace then
        (if acc.2 then acc.1 else acc.1.push ' ', true)
      else
        (acc.1.push c, false))
    ("", false)).1

/-- The per-line truncation of `buildHomeworksQueryString`:
`line.length > 50 ? line.substring(0, 49) + '...' : line`. -/
def truncateLine (line : String) : String :=
  if line.length > 50 then line.take 49 ++ "..." else line

/-- One rendered homework line (before truncation):
`` `[${indicator}] ${subject}: ${content} – ${dueDateText}` `` with the
relative-day indicator, the subject coerced to a string, the content
defaulted to `'Bez popisu'` and whitespace-collapsed, and the formatted due
date (`getD 0` stands for the `Date` the pipeline guarantees). -/
def renderHomeworkLine (generatedAt : Int) (homework : CanonicalHomework) : String :=
  let indicator := describeRelativeDay generatedAt (homework.dueDate.getD 0)
  let content :=
    collapseWhitespace (if homework.content.isEmpty then "Bez popisu" else homework.content)
  "[" ++ indicator ++ "] " ++ jsString homework.subjectName ++ ": " ++ content ++
    " – " ++ formatDate (homework.dueDate.getD 0)

/-- Embeds `buildHomeworksQueryString(homeworks, generatedAt, linePrefix,
updatedParam)`.  Non-arrays and empty arrays take the empty branch;
otherwise the first 10 records are rendered, truncated, percent-encoded and
indexed 1-based, and the metadata line is stamped with `generatedAt`. -/
def buildHomeworksQueryString (homeworks : EncoderArg CanonicalHomework)
    (generatedAt : Int) (lineParam updatedParam : String) : String :=
  match homeworks with
  | .nonArray _ => homeworksEmptyOutput generatedAt lineParam updatedParam
  | .array xs =>
      if xs.isEmpty then homeworksEmptyOutput generatedAt lineParam updatedParam
      else
        joinSep "&"
          (((xs.take 10).enum.map fun p =>
              lineParam ++ "_" ++ toString (p.1 + 1) ++ "=" ++
                encodeURIComponent (truncateLine (renderHomeworkLine generatedAt p.2))) ++
            [updatedParam ++ "=" ++ encodeURIComponent (formatDate generatedAt)])

/-! ### Concrete payload fixtures used by the theorems below -/

/-- Fifteen distinct edit-date offsets, deliberately out of order. -/
def testMarkDates : List Int := [5, 12, 1, 9, 14, 3, 7, 0, 11, 6, 2, 13, 8, 4, 10]

/-- A raw mark with value `"1"` and a numeric edit date `1000 + i`. -/
def testRawMark (i : Int) : JsVal :=
  .obj [("MarkText", .str "1"), ("EditDate", .num (1000 + i))]

/-- A subject group holding the fifteen `testRawMark`s. -/
def testMarksSubject : JsVal :=
  .obj [("Abbrev", .str "MAT"), ("Marks", .arr (testMarkDates.map testRawMark))]

/-- The canonical mark `testRawMark i` normalizes to. -/
def testCanonicalMark (i : Int) : CanonicalMark :=
  { subjectName := .str "MAT"
    markValue := .str "1"
    editDate := 1000 + i
    caption := .str ""
    theme := .str "" }

/-- A subject group holding a single valid raw mark. -/
def soloRawSubject : JsVal :=
  .obj [("Marks", .arr [.obj [("MarkText", .str "1"), ("EditDate", .num 5)]])]

/-- The one canonical mark `soloRawSubject` yields. -/
def soloMark : CanonicalMark :=
  { subjectName := .str "Neznámý předmět"
    markValue := .str "1"
    editDate := 5
    caption := .str ""
    theme := .str "" }

/-- A raw event carrying only an end-date-like field. -/
def onlyEndEvent : JsVal := .obj [("DateTo", .str "2024-03-10")]

/-- A raw event with a numeric start instant `100`. -/
def soloRawEvent : JsVal := .obj [("Start", .num 100)]

/-! ## Theorems -/

/-- C1 counterexample: in `extractHomeworkDueDate`, a first candidate
(`DueDate`) holding an unparseable value makes the resolution fail even
though the next candidate (`Deadline`) would yield a valid instant, contrary
to the claim that invalid candidates do not block later ones. -/
theorem c1_counterexample :
    extractHomeworkDueDate
        (JsVal.obj [("DueDate", JsVal.str "garbage"), ("Deadline", JsVal.str "2024-03-10")]) =
      none ∧
    newDate (JsVal.str "garbage") = none ∧
    newDate (JsVal.str "2024-03-10") = some 1710028800000 :=
  ⟨rfl, rfl, rfl⟩

/-- C1 (amended): event start-date resolution skips candidates that fail to
parse, but homework due-date resolution and mark edit-date resolution take
the first *present* (non-nullish) candidate and stop there — the result is
exactly `parseDate` of that value, so an empty or unparseable present value
fails the whole resolution without trying later candidates. -/
theorem c1_first_candidate_semantics :
    (∀ (v : JsVal) (vs : List JsVal), parseDate v = none →
      firstParsedDate (v :: vs) = firstParsedDate vs) ∧
    (∀ e : JsVal, extractEventStartDate e =
      firstParsedDate
        [e.get "DateFrom", e.get "Start", e.get "Date", e.get "From",
         e.get "Begin", e.get "Since"]) ∧
    (∀ hw : JsVal, (hw.get "DueDate").isNullish = false →
      extractHomeworkDueDate hw = parseDate (hw.get "DueDate")) ∧
    (∀ mark : JsVal, (mark.get "EditDate").isNullish = false →
      resolveMarkEditDate mark = parseDate (mark.get "EditDate")) := by
  refine ⟨fun v vs h => ?_, fun e => rfl, fun hw h => ?_, fun mark h => ?_⟩
  · simp only [firstParsedDate, h]
  · simp only [extractHomeworkDueDate, firstNonNullish, h, if_false, Bool.false_eq_true,
      parseDate]
  · simp only [resolveMarkEditDate, firstNonNullish, h, if_false, Bool.false_eq_true,
      parseDate]

/-- C1 witness: the amended semantics applied at concrete records. -/
theorem c1_first_candidate_semantics_witness :
    firstParsedDate [JsVal.str "garbage", JsVal.str "2024-03-10"] =
      firstParsedDate [JsVal.str "2024-03-10"] ∧
    extractHomeworkDueDate (JsVal.obj [("DueDate", JsVal.str "2024-03-11")]) =
      parseDate (JsVal.str "2024-03-11") ∧
    resolveMarkEditDate (JsVal.obj [("EditDate", JsVal.str "2024-03-11")]) =
      parseDate (JsVal.str "2024-03-11") :=
  ⟨c1_first_candidate_semantics.1 _ _ rfl,
   c1_first_candidate_semantics.2.2.1 _ rfl,
   c1_first_candidate_semantics.2.2.2 _ rfl⟩

/-- C2 counterexample: `extractMarkValue` returns a whitespace-padded first
candidate untrimmed instead of skipping it for the next non-whitespace
string, and returns `''` (not `undefined`) when no candidate is present. -/
theorem c2_counterexample :
    extractMarkValue
        (JsVal.obj [("MarkText", JsVal.str "  1-  "), ("Text", JsVal.str "ok")]) =
      JsVal.str "  1-  " ∧
    extractMarkValue (JsVal.obj []) = JsVal.str "" :=
  ⟨rfl, rfl⟩

/-- C2 (amended): the homework-content/event-title/event-description
resolver does return the trimmed value of the first candidate that is a
string with non-whitespace content, skipping absent, non-string and
whitespace-only candidates — but it falls back to a default (`''` or a
label), never `undefined`; mark-value and subject-name resolution instead
take the first non-nullish candidate as-is (untrimmed, not necessarily a
string), with fallbacks `''` and `'Neznámý předmět'`. -/
theorem c2_field_resolution_semantics :
    (∀ (s : String) (vs : List JsVal), jsTrim s ≠ "" →
      findStringContent (JsVal.str s :: vs) = some (jsTrim s)) ∧
    (∀ (s : String) (vs : List JsVal), jsTrim s = "" →
      findStringContent (JsVal.str s :: vs) = findStringContent vs) ∧
    (∀ (v : JsVal) (vs : List JsVal), v.isStr = false →
      findStringContent (v :: vs) = findStringContent vs) ∧
    (∀ hw : JsVal, extractHomeworkContent hw =
      (findStringContent
        [hw.get "HomeworkText", hw.get "Text", hw.get "Description",
         hw.get "Title", hw.get "Content", hw.get "Note", hw.get "Name"]).getD "") ∧
    (∀ mark : JsVal, (mark.get "MarkText").isNullish = false →
      extractMarkValue mark = mark.get "MarkText") ∧
    extractMarkValue (JsVal.obj []) = JsVal.str "" ∧
    extractSubjectName (JsVal.obj []) = JsVal.str "Neznámý předmět" := by
  refine ⟨fun s vs h => ?_, fun s vs h => ?_, fun v vs h => ?_, fun hw => rfl,
    fun mark h => ?_, rfl, rfl⟩
  · simp only [findStringContent]
    rw [if_pos h]
  · simp only [findStringContent]
    rw [if_neg (not_not_intro h)]
  · cases v <;> simp_all [findStringContent, JsVal.isStr]
  · simp only [extractMarkValue, firstNonNullish, jsOr, h, Bool.false_eq_true, if_false]

/-- C2 witness: the amended resolution semantics applied at concrete
records and candidate lists. -/
theorem c2_field_resolution_semantics_witness :
    findStringContent [JsVal.str " obsah ", JsVal.str "x"] = some "obsah" ∧
    findStringContent [JsVal.str "  ", JsVal.str "x"] = findStringContent [JsVal.str "x"] ∧
    findStringContent [JsVal.num 3, JsVal.str "x"] = findStringContent [JsVal.str "x"] ∧
    extractMarkValue (JsVal.obj [("MarkText", JsVal.str "1")]) =
      JsVal.get (JsVal.obj [("MarkText", JsVal.str "1")]) "MarkText" :=
  ⟨c2_field_resolution_semantics.1 " obsah " _ (by decide),
   c2_field_resolution_semantics.2.1 "  " _ (by decide),
   c2_field_resolution_semantics.2.2.1 _ _ rfl,
   c2_field_resolution_semantics.2.2.2.2.1 _ rfl⟩

/-- Floor division is unchanged by adding a sub-divisor offset to a
multiple of `msPerDay`. -/
theorem fdiv_mul_add_offset (k offset : Int) (h0 : 0 ≤ offset)
    (h1 : offset < msPerDay) :
    Int.fdiv (k * msPerDay + offset) msPerDay = k := by
  have hD : (0 : Int) < msPerDay := by norm_num [msPerDay]
  rw [Int.fdiv_eq_ediv _ hD.le, add_comm,
    Int.add_mul_ediv_right _ _ (ne_of_gt hD),
    Int.ediv_eq_zero_of_lt h0 h1, zero_add]

/-- Lemma: `startOfUtcDay` maps every instant of a UTC day to that day's
midnight. -/
theorem startOfUtcDay_mul_add (k offset : Int) (h0 : 0 ≤ offset)
    (h1 : offset < msPerDay) :
    startOfUtcDay (k * msPerDay + offset) = k * msPerDay := by
  unfold startOfUtcDay
  rw [fdiv_mul_add_offset k offset h0 h1]

/-- C3: the homework and event range filters keep a record iff the UTC
day-floor of its resolved date lies between the day-floors of `from` and
`to`, both ends inclusive; with `from = to` exactly the records whose date
day-floors to that single day pass, and every time-of-day offset within a
day shares its day-floor.  (`startOfUtcDay` is modelled from the spec,
`src/utils/util.mjs` not being among the sources.) -/
theorem c3_day_floor_range :
    (∀ (hw : JsVal) (fromDate toDate : Int),
      isHomeworkWithinRange hw fromDate toDate = true ↔
        ∃ d, extractHomeworkDueDate hw = some d ∧
          startOfUtcDay fromDate ≤ startOfUtcDay d ∧
          startOfUtcDay d ≤ startOfUtcDay toDate) ∧
    (∀ (ev : CanonicalEvent) (fromDate toDate : Int),
      isEventWithinRange ev fromDate toDate = true ↔
        ∃ d, ev.startDate = some d ∧
          startOfUtcDay fromDate ≤ startOfUtcDay d ∧
          startOfUtcDay d ≤ startOfUtcDay toDate) ∧
    (∀ (hw : JsVal) (day : Int),
      isHomeworkWithinRange hw day day = true ↔
        ∃ d, extractHomeworkDueDate hw = some d ∧
          startOfUtcDay d = startOfUtcDay day) ∧
    (∀ (base offset : Int), 0 ≤ offset → offset < msPerDay →
      startOfUtcDay (startOfUtcDay base + offset) = startOfUtcDay base) := by
  refine ⟨fun hw fromDate toDate => ?_, fun ev fromDate toDate => ?_,
    fun hw day => ?_, fun base offset h0 h1 => ?_⟩
  · unfold isHomeworkWithinRange
    cases h : extractHomeworkDueDate hw <;> simp [h]
  · unfold isEventWithinRange
    cases h : ev.startDate <;> simp [h]
  · unfold isHomeworkWithinRange
    cases h : extractHomeworkDueDate hw
    · simp [h]
    · simp only [h, Bool.and_eq_true, decide_eq_true_eq, Option.some.injEq]
      constructor
      · rintro ⟨h1, h2⟩
        exact ⟨_, rfl, le_antisymm h2 h1⟩
      · rintro ⟨d, rfl, he⟩
        exact ⟨he.ge, he.le⟩
  · show startOfUtcDay (Int.fdiv base msPerDay * msPerDay + offset) = _
    rw [startOfUtcDay_mul_add _ _ h0 h1]
    rfl

/-- C3 witness: the range characterization and the time-of-day invariance
applied at concrete instants. -/
theorem c3_day_floor_range_witness :
    isHomeworkWithinRange (JsVal.obj [("DueDate", JsVal.num 100)]) 0 msPerDay = true ∧
    isHomeworkWithinRange (JsVal.obj [("DueDate", JsVal.num 100)]) 0 0 = true ∧
    startOfUtcDay (startOfUtcDay 123456789 + 5) = startOfUtcDay 123456789 :=
  ⟨(c3_day_floor_range.1 _ 0 msPerDay).mpr ⟨100, rfl, by decide, by decide⟩,
   (c3_day_floor_range.2.2.1 _ 0).mpr ⟨100, rfl, by decide⟩,
   c3_day_floor_range.2.2.2 123456789 5 (by decide) (by decide)⟩

/-- C4: the mark pipeline output is capped at 10, sorted by edit date
descending, and drawn from the flattened valid marks with no day-range
filter — when at most 10 marks are valid, every valid mark appears in the
output whatever its date; on the fixture of 15 valid marks with distinct
edit dates the output is exactly the 10 most recent in descending order. -/
theorem c4_mark_pipeline :
    (∀ subjects : List JsVal,
      (processMarks subjects).length = min (validMarks subjects).length 10 ∧
      List.Sorted (fun a b => b.editDate ≤ a.editDate) (processMarks subjects) ∧
      (∀ m ∈ processMarks subjects, m ∈ validMarks subjects) ∧
      ((validMarks subjects).length ≤ 10 →
        ∀ m ∈ validMarks subjects, m ∈ processMarks subjects)) ∧
    processMarks [testMarksSubject] =
      [testCanonicalMark 14, testCanonicalMark 13, testCanonicalMark 12,
       testCanonicalMark 11, testCanonicalMark 10, testCanonicalMark 9,
       testCanonicalMark 8, testCanonicalMark 7, testCanonicalMark 6,
       testCanonicalMark 5] := by
  constructor
  · intro subjects
    letI : IsTotal CanonicalMark (fun a b => b.editDate ≤ a.editDate) :=
      ⟨fun a b => le_total b.editDate a.editDate⟩
    letI : IsTrans CanonicalMark (fun a b => b.editDate ≤ a.editDate) :=
      ⟨fun _ _ _ hab hbc => le_trans hbc hab⟩
    have hperm := List.perm_insertionSort
      (fun a b : CanonicalMark => b.editDate ≤ a.editDate) (validMarks subjects)
    have hsorted := List.sorted_insertionSort
      (fun a b : CanonicalMark => b.editDate ≤ a.editDate) (validMarks subjects)
    refine ⟨?_, ?_, ?_, ?_⟩
    · simp [processMarks, hperm.length_eq, Nat.min_comm]
    · exact List.Pairwise.sublist (List.take_sublist _ _) hsorted
    · intro m hm
      exact hperm.subset ((List.take_sublist _ _).subset hm)
    · intro hlen m hm
      have heq : processMarks subjects =
          List.insertionSort (fun a b => b.editDate ≤ a.editDate) (validMarks subjects) := by
        unfold processMarks
        exact List.take_of_length_le (by rw [hperm.length_eq]; exact hlen)
      rw [heq]
      exact hperm.mem_iff.mpr hm
  · rfl

/-- C4 witness: the general pipeline properties applied at a one-mark
payload. -/
theorem c4_mark_pipeline_witness :
    soloMark ∈ validMarks [soloRawSubject] ∧
    soloMark ∈ processMarks [soloRawSubject] := by
  have hv : validMarks [soloRawSubject] = [soloMark] := rfl
  have hp : soloMark ∈ processMarks [soloRawSubject] := by
    rw [show processMarks [soloRawSubject] = [soloMark] from rfl]
    exact List.mem_singleton_self _
  exact ⟨(c4_mark_pipeline.1 [soloRawSubject]).2.2.1 soloMark hp,
    (c4_mark_pipeline.1 [soloRawSubject]).2.2.2
      (by rw [hv]; norm_num) soloMark (by rw [hv]; exact List.mem_singleton_self _)⟩

/-- C5: a rendered homework line longer than 50 characters is truncated to
its first 49 characters with the ellipsis marker appended (this happens
before `encodeURIComponent` is applied in `buildHomeworksQueryString`),
while a line of exactly 50 characters passes unchanged. -/
theorem c5_homework_line_truncation :
    ∀ line : String,
      (line.length > 50 → truncateLine line = line.take 49 ++ "...") ∧
      (line.length = 50 → truncateLine line = line) := by
  intro line
  constructor
  · intro h
    unfold truncateLine
    rw [if_pos h]
  · intro h
    unfold truncateLine
    rw [if_neg (by omega)]

/-- C5 witness: truncation applied at a 51-character and a 50-character
line. -/
theorem c5_homework_line_truncation_witness :
    truncateLine "123456789012345678901234567890123456789012345678901" =
      String.take "123456789012345678901234567890123456789012345678901" 49 ++ "..." ∧
    truncateLine "12345678901234567890123456789012345678901234567890" =
      "12345678901234567890123456789012345678901234567890" :=
  ⟨(c5_homework_line_truncation _).1 (by decide),
   (c5_homework_line_truncation _).2 (by decide)⟩

/-- Appending a final element to a joined non-empty list appends one
separator and the element. -/
theorem joinSep_concat (sep x : String) :
    ∀ ls : List String, ls ≠ [] →
      joinSep sep (ls ++ [x]) = joinSep sep ls ++ sep ++ x := by
  intro ls
  induction ls with
  | nil => intro h; exact absurd rfl h
  | cons a rest ih =>
    intro _
    cases rest with
    | nil => rfl
    | cons b rest2 =>
      show a ++ sep ++ joinSep sep ((b :: rest2) ++ [x]) = _
      rw [ih (List.cons_ne_nil _ _)]
      show _ = (a ++ sep ++ joinSep sep (b :: rest2)) ++ sep ++ x
      simp [String.append_assoc]

/-- The mark pipeline's output is sorted by edit date, newest first. -/
theorem processMarks_sorted (subjects : List JsVal) :
    List.Sorted (fun a b => b.editDate ≤ a.editDate) (processMarks subjects) := by
  letI : IsTotal CanonicalMark (fun a b => b.editDate ≤ a.editDate) :=
    ⟨fun a b => le_total b.editDate a.editDate⟩
  letI : IsTrans CanonicalMark (fun a b => b.editDate ≤ a.editDate) :=
    ⟨fun _ _ _ hab hbc => le_trans hbc hab⟩
  exact List.Pairwise.sublist (List.take_sublist _ _)
    (List.sorted_insertionSort _ (validMarks subjects))

/-- C6: on a non-empty mark list the metadata line's instant
(`marks[0]?.editDate ?? new Date()`) is the maximum edit date over the
encoded marks (the pipeline sorts them newest-first), and
`buildMarksQueryString` stamps exactly that instant at the tail of its
output; `buildHomeworksQueryString` always stamps the generation instant
passed to it.  (`formatDate` is modelled from the spec,
`src/utils/util.mjs` not being among the sources.) -/
theorem c6_metadata_timestamp :
    (∀ (subjects : List JsVal) (now : Int),
      processMarks subjects ≠ [] →
        (∃ m ∈ processMarks subjects,
          marksUpdatedInstant (processMarks subjects) now = m.editDate) ∧
        ∀ m ∈ processMarks subjects,
          m.editDate ≤ marksUpdatedInstant (processMarks subjects) now) ∧
    (∀ (ms : List CanonicalMark) (now : Int) (lp up : String), ms ≠ [] →
      ∃ front, buildMarksQueryString (.array ms) now lp up =
        front ++ (up ++ "=" ++
          encodeURIComponent (formatDate (marksUpdatedInstant ms now)))) ∧
    (∀ (hws : EncoderArg CanonicalHomework) (gen : Int) (lp up : String),
      ∃ front, buildHomeworksQueryString hws gen lp up =
        front ++ (up ++ "=" ++ encodeURIComponent (formatDate gen))) := by
  refine ⟨fun subjects now hne => ?_, fun ms now lp up hne => ?_,
    fun hws gen lp up => ?_⟩
  · have hs := processMarks_sorted subjects
    cases hl : processMarks subjects with
    | nil => exact absurd hl hne
    | cons m0 rest =>
      rw [hl] at hs
      rw [List.sorted_cons] at hs
      refine ⟨⟨m0, List.mem_cons_self _ _, rfl⟩, ?_⟩
      intro m hm
      rcases List.mem_cons.mp hm with h | h
      · subst h
        exact le_refl _
      · exact hs.1 m h
  · cases ms with
    | nil => exact absurd rfl hne
    | cons m rest =>
      refine ⟨joinSep "&"
        ((List.enum (m :: rest)).map fun p =>
          lp ++ "_" ++ toString (p.1 + 1) ++ "=" ++
            encodeURIComponent (renderMarkLine p.2)) ++ "&", ?_⟩
      have hmapne : ((List.enum (m :: rest)).map fun p =>
          lp ++ "_" ++ toString (p.1 + 1) ++ "=" ++
            encodeURIComponent (renderMarkLine p.2)) ≠ [] := by
        simp [List.enum_cons]
      show joinSep "&" (_ ++ [_]) = _
      rw [joinSep_concat _ _ _ hmapne, String.append_assoc]
  · cases hws with
    | nonArray v =>
      exact ⟨lp ++ "_1=" ++ encodeURIComponent noHomeworksMessage ++ "&", rfl⟩
    | array xs =>
      cases xs with
      | nil =>
        exact ⟨lp ++ "_1=" ++ encodeURIComponent noHomeworksMessage ++ "&", rfl⟩
      | cons h rest =>
        refine ⟨joinSep "&"
          ((List.enum ((h :: rest).take 10)).map fun p =>
            lp ++ "_" ++ toString (p.1 + 1) ++ "=" ++
              encodeURIComponent (truncateLine (renderHomeworkLine gen p.2))) ++ "&", ?_⟩
        have hmapne : ((List.enum ((h :: rest).take 10)).map fun p =>
            lp ++ "_" ++ toString (p.1 + 1) ++ "=" ++
              encodeURIComponent (truncateLine (renderHomeworkLine gen p.2))) ≠ [] := by
          simp [List.take_cons, List.enum_cons]
        show joinSep "&" (_ ++ [_]) = _
        rw [joinSep_concat _ _ _ hmapne, String.append_assoc]

/-- C6 witness: the metadata-instant properties applied at the one-mark
payload and a concrete homework encoder call. -/
theorem c6_metadata_timestamp_witness :
    (∃ m ∈ processMarks [soloRawSubject],
      marksUpdatedInstant (processMarks [soloRawSubject]) 7 = m.editDate) ∧
    (∃ front, buildMarksQueryString (.array [soloMark]) 7 "g" "u" =
      front ++ ("u" ++ "=" ++
        encodeURIComponent (formatDate (marksUpdatedInstant [soloMark] 7)))) ∧
    (∃ front, buildHomeworksQueryString (.nonArray .undefined) 7 "h" "u" =
      front ++ ("u" ++ "=" ++ encodeURIComponent (formatDate 7))) :=
  ⟨(c6_metadata_timestamp.1 [soloRawSubject] 7 (by
      rw [show processMarks [soloRawSubject] = [soloMark] from rfl]
      exact List.cons_ne_nil _ _)).1,
   c6_metadata_timestamp.2.1 [soloMark] 7 "g" "u" (List.cons_ne_nil _ _),
   c6_metadata_timestamp.2.2 (.nonArray .undefined) 7 "h" "u"⟩

/-- C7 counterexample: a raw mark whose `MarkText` is the number `5` is
*not* dropped — it is emitted with `markValue` equal to that raw number,
which is not a string (let alone a non-empty one). -/
theorem c7_counterexample :
    validMarks
        [JsVal.obj [("Marks",
          JsVal.arr [JsVal.obj [("MarkText", JsVal.num 5), ("EditDate", JsVal.num 1000)]])]] =
      [{ subjectName := JsVal.str "Neznámý předmět"
         markValue := JsVal.num 5
         editDate := 1000
         caption := JsVal.str ""
         theme := JsVal.str "" }] ∧
    JsVal.isStr (JsVal.num 5) = false :=
  ⟨rfl, rfl⟩

/-- Inversion of a successful mark normalization: the emitted fields come
from the resolvers, and the guard held. -/
theorem normalizeRawMark_eq_some {sn mk : JsVal} {c : CanonicalMark}
    (h : normalizeRawMark sn mk = some c) :
    c.markValue = extractMarkValue mk ∧ (extractMarkValue mk).truthy = true ∧
    resolveMarkEditDate mk = some c.editDate ∧ c.subjectName = sn := by
  simp only [normalizeRawMark] at h
  split at h
  · exact absurd h (by simp)
  · split at h
    · injection h with h
      subst h
      exact ⟨rfl, by assumption, by simp_all, rfl⟩
    · exact absurd h (by simp)

/-- C7 (amended): every record emitted by mark normalization carries a
*truthy* `markValue` (hence a non-empty string whenever it is a string, but
possibly a raw non-string value) and an edit date that resolved to a valid
instant; a raw mark whose value resolves falsy or whose edit date fails to
resolve is dropped by `normalizeRawMark` itself, before sorting, capping or
encoding. -/
theorem c7_mark_normalization_invariant :
    (∀ (subjects : List JsVal) (m : CanonicalMark), m ∈ validMarks subjects →
      m.markValue.truthy = true) ∧
    (∀ (subjects : List JsVal) (m : CanonicalMark), m ∈ validMarks subjects →
      ∃ subject ∈ subjects, ∃ raw ∈ (jsOr (subject.get "Marks")
          (jsOr (subject.get "marks") (.arr []))).asArrayD,
        resolveMarkEditDate raw = some m.editDate ∧
        extractMarkValue raw = m.markValue) ∧
    (∀ subjectName mark : JsVal,
      (extractMarkValue mark).truthy = false ∨ resolveMarkEditDate mark = none →
        normalizeRawMark subjectName mark = none) := by
  refine ⟨fun subjects m hm => ?_, fun subjects m hm => ?_,
    fun subjectName mark h => ?_⟩
  · rw [validMarks, List.mem_flatMap] at hm
    obtain ⟨subject, -, hm2⟩ := hm
    obtain ⟨raw, -, hraw⟩ := List.mem_filterMap.mp hm2
    obtain ⟨hval, htruthy, -, -⟩ := normalizeRawMark_eq_some hraw
    rw [hval]
    exact htruthy
  · rw [validMarks, List.mem_flatMap] at hm
    obtain ⟨subject, hsub, hm2⟩ := hm
    obtain ⟨raw, hrawmem, hraw⟩ := List.mem_filterMap.mp hm2
    obtain ⟨hval, -, hdate, -⟩ := normalizeRawMark_eq_some hraw
    exact ⟨subject, hsub, raw, hrawmem, hdate, hval.symm⟩
  · simp only [normalizeRawMark]
    rcases h with h | h
    · split
      · rfl
      · rw [if_neg (by simp [h])]
    · rw [h]

/-- C7 witness: the invariants applied at the one-mark payload and the drop
rule applied at a valueless raw mark. -/
theorem c7_mark_normalization_invariant_witness :
    JsVal.truthy (CanonicalMark.markValue soloMark) = true ∧
    normalizeRawMark (JsVal.str "S") (JsVal.obj [("EditDate", JsVal.num 3)]) = none :=
  ⟨c7_mark_normalization_invariant.1 [soloRawSubject] soloMark (by
      rw [show validMarks [soloRawSubject] = [soloMark] from rfl]
      exact List.mem_singleton_self _),
   c7_mark_normalization_invariant.2.2 (JsVal.str "S")
     (JsVal.obj [("EditDate", JsVal.num 3)]) (Or.inl rfl)⟩

/-- C8: every event surviving the pipeline has a resolved start date; an
event whose start-date resolution failed is rejected by the range filter
whatever the range (even when an end-date-like field is populated and
resolves — there is no fallback), as the `onlyEndEvent` fixture shows. -/
theorem c8_missing_start_excluded :
    (∀ (events : List JsVal) (fromDate toDate : Int) (c : CanonicalEvent),
      c ∈ processEvents events fromDate toDate → c.startDate.isSome = true) ∧
    (∀ (e : JsVal) (fromDate toDate : Int), extractEventStartDate e = none →
      isEventWithinRange (normalizeEvent e) fromDate toDate = false) ∧
    (∀ fromDate toDate : Int,
      processEvents [onlyEndEvent] fromDate toDate = []) ∧
    (normalizeEvent onlyEndEvent).startDate = none ∧
    (normalizeEvent onlyEndEvent).endDate = some 1710028800000 := by
  refine ⟨fun events fromDate toDate c hc => ?_, fun e fromDate toDate h => ?_,
    fun fromDate toDate => ?_, rfl, rfl⟩
  · letI : IsTotal CanonicalEvent (fun a b => a.startDate.getD 0 ≤ b.startDate.getD 0) :=
      ⟨fun a b => le_total _ _⟩
    letI : IsTrans CanonicalEvent (fun a b => a.startDate.getD 0 ≤ b.startDate.getD 0) :=
      ⟨fun _ _ _ hab hbc => le_trans hab hbc⟩
    unfold processEvents at hc
    have hmem := (List.perm_insertionSort _ _).subset hc
    have hrange := List.of_mem_filter hmem
    unfold isEventWithinRange at hrange
    cases h : c.startDate with
    | none => rw [h] at hrange; simp at hrange
    | some s => rfl
  · unfold isEventWithinRange normalizeEvent
    simp [h]
  · have hstart : (normalizeEvent onlyEndEvent).startDate = none := rfl
    unfold processEvents
    rw [show List.filter (fun ev => isEventWithinRange ev fromDate toDate)
        (List.map normalizeEvent [onlyEndEvent]) = [] from ?_]
    · rfl
    · rw [List.map_singleton, List.filter_cons]
      rw [show isEventWithinRange (normalizeEvent onlyEndEvent) fromDate toDate = false from ?_]
      · rfl
      · unfold isEventWithinRange
        rw [hstart]

/-- C8 witness: the surviving-event property applied at an event inside the
range. -/
theorem c8_missing_start_excluded_witness :
    Option.isSome (CanonicalEvent.startDate (normalizeEvent soloRawEvent)) = true :=
  c8_missing_start_excluded.1 [soloRawEvent] 0 msPerDay (normalizeEvent soloRawEvent)
    (by rw [show processEvents [soloRawEvent] 0 msPerDay = [normalizeEvent soloRawEvent] from rfl]
        exact List.mem_singleton_self _)

/-- C9: when a payload carries none of the expected container arrays, every
pipeline sees an empty record list and the encoders produce the normal "no
items" output — exactly one message line plus one metadata line joined by
`&` — instead of erroring.  (`formatDate` is modelled from the spec,
`src/utils/util.mjs` not being among the sources.) -/
theorem c9_missing_container_empty_encoding :
    ∀ (data : JsVal) (now gen fromDate toDate : Int) (lp up : String),
      (data.get "Subjects").isNullish = true →
      (data.get "subjects").isNullish = true →
      (data.get "Homeworks").isNullish = true →
      (data.get "homeworks").isNullish = true →
      (data.get "Events").isNullish = true →
      (data.get "events").isNullish = true →
      subjectsContainer data = [] ∧
      buildMarksQueryString (.array (processMarks (subjectsContainer data))) now lp up =
        joinSep "&"
          [lp ++ "_1=" ++ encodeURIComponent noMarksMessage,
           up ++ "=" ++ encodeURIComponent (formatDate now)] ∧
      homeworksContainer data = [] ∧
      buildHomeworksQueryString
          (.array (processHomeworks (homeworksContainer data) fromDate toDate)) gen lp up =
        joinSep "&"
          [lp ++ "_1=" ++ encodeURIComponent noHomeworksMessage,
           up ++ "=" ++ encodeURIComponent (formatDate gen)] ∧
      eventsContainer data = [] ∧
      processEvents (eventsContainer data) fromDate toDate = [] := by
  intro data now gen fromDate toDate lp up h1 h2 h3 h4 h5 h6
  have hs : subjectsContainer data = [] := by
    simp [subjectsContainer, jsOr, h1, h2, JsVal.asArrayD]
  have hh : homeworksContainer data = [] := by
    simp [homeworksContainer, jsOr, h3, h4, JsVal.asArrayD]
  have he : eventsContainer data = [] := by
    simp [eventsContainer, jsOr, h5, h6, JsVal.asArrayD]
  refine ⟨hs, ?_, hh, ?_, he, ?_⟩
  · rw [hs]
    rfl
  · rw [hh]
    rfl
  · rw [he]
    rfl

/-- C9 witness: a payload with an unrelated field and no containers takes
the "no items" path in all three pipelines. -/
theorem c9_missing_container_empty_encoding_witness :
    subjectsContainer (JsVal.obj [("foo", JsVal.num 1)]) = [] ∧
    buildMarksQueryString
        (.array (processMarks (subjectsContainer (JsVal.obj [("foo", JsVal.num 1)]))))
        5 "grades_line" "grades_updated" =
      joinSep "&"
        ["grades_line" ++ "_1=" ++ encodeURIComponent noMarksMessage,
         "grades_updated" ++ "=" ++ encodeURIComponent (formatDate 5)] ∧
    homeworksContainer (JsVal.obj [("foo", JsVal.num 1)]) = [] ∧
    buildHomeworksQueryString
        (.array (processHomeworks (homeworksContainer (JsVal.obj [("foo", JsVal.num 1)])) 0 9))
        5 "grades_line" "grades_updated" =
      joinSep "&"
        ["grades_line" ++ "_1=" ++ encodeURIComponent noHomeworksMessage,
         "grades_updated" ++ "=" ++ encodeURIComponent (formatDate 5)] ∧
    eventsContainer (JsVal.obj [("foo", JsVal.num 1)]) = [] ∧
    processEvents (eventsContainer (JsVal.obj [("foo", JsVal.num 1)])) 0 9 = [] :=
  c9_missing_container_empty_encoding (JsVal.obj [("foo", JsVal.num 1)])
    5 5 0 9 "grades_line" "grades_updated" rfl rfl rfl rfl rfl rfl

/-- C10: handed any non-array argument (`undefined`, a plain object, ...),
both encoders return exactly the two-line "no items" output they produce
for an empty list — encoding is total over arbitrary inputs and never
throws. -/
theorem c10_non_array_encoding_total :
    ∀ (v : JsVal) (now gen : Int) (lp up : String),
      buildMarksQueryString (.nonArray v) now lp up =
        buildMarksQueryString (.array []) now lp up ∧
      buildHomeworksQueryString (.nonArray v) gen lp up =
        buildHomeworksQueryString (.array []) gen lp up := by
  intro v now gen lp up
  exact ⟨rfl, rfl⟩

end Bakalari
